import Mathlib

/-!
Verification development for the image_editor repository: a plugin host
(`image_processor`) that dynamically loads filter modules, and two filter
plugins (`blur_plugin`, `mirror_plugin`) exposing the C entry point
`process_image (width : u32, height : u32, data : *mut u8, params : *const c_char) -> i32`.

The embedding below follows the Rust sources.  Machine integers are
modelled as `Nat` with explicit reduction modulo `2^32` where u32
overflow matters.  The platform is taken to be 64-bit: the source's
`u32 -> usize` and `u32 -> isize` conversions (`try_into`) always succeed
there, so they disappear from the model (their failure arms are dead code
on that platform).  The buffer is the byte slice the source constructs
(`std::slice::from_raw_parts_mut(data, len)`), modelled as `List Nat`;
reads are modelled with `List.getD _ _ 0`, which agrees with the source
exactly whenever the computed `len` equals `width*height*4` and the list
has that length (the hypotheses carried by the theorems below).
`serde_json` is external to the repository, so the parameter channel is
modelled by its observable outcome: a null pointer, a non-UTF-8 string
(which `CStr::to_str` rejects with return code -1), or a decode result
`Option P` where `none` is any decode failure (malformed syntax, wrong
field type, missing field) -- including the empty string produced for a
null pointer, which never parses.
-/

/-- `2^32`, the modulus of `u32` arithmetic. -/
def U32M : Nat := 4294967296

/-- `u32::checked_mul`: `none` exactly when the mathematical product
does not fit in a `u32`. -/
def checkedMul32 (a b : Nat) : Option Nat :=
  if a * b < U32M then some (a * b) else none

/-- `u32::saturating_mul`: clamps the mathematical product to `u32::MAX`. -/
def saturatingMul32 (a b : Nat) : Nat :=
  min (a * b) (U32M - 1)

/-- Decoded configuration of the blur plugin
(struct `Params` in blur_plugin/src/lib.rs, fields `radius, iterations : u32`). -/
structure BlurParams where
  radius : Nat
  iterations : Nat
deriving DecidableEq

/-- Default blur configuration substituted on decode failure
(blur_plugin/src/lib.rs lines 95-98): radius 1, iteration 1. -/
def blurDefaultParams : BlurParams := ⟨1, 1⟩

/-- Decoded configuration of the mirror plugin
(struct `Params` in mirror_plugin/src/lib.rs, fields `horizontal, vertical : bool`). -/
structure MirrorParams where
  horizontal : Bool
  vertical : Bool
deriving DecidableEq

/-- Default mirror configuration substituted on decode failure
(mirror_plugin/src/lib.rs lines 90-93): both flags false. -/
def mirrorDefaultParams : MirrorParams := ⟨false, false⟩

/-- The `params` argument of `process_image`, by observable outcome:
null pointer, invalid UTF-8 (rejected by `CStr::to_str`), or a
null-terminated UTF-8 string abstracted by its `serde_json` decode
result (`none` = any decode failure). -/
inductive RawParams (P : Type) where
  | null : RawParams P
  | invalidUtf8 : RawParams P
  | decoded : Option P → RawParams P
deriving DecidableEq

/-- The parameter handling both plugins share: invalid UTF-8 is a hard
error (`return -1`); a null pointer yields the empty string, which fails
to decode, hence the default; a decode failure yields the default. -/
def decodeParams {P : Type} (dflt : P) : RawParams P → Option P
  | RawParams.null => some dflt
  | RawParams.invalidUtf8 => none
  | RawParams.decoded o => some (o.getD dflt)

/-- The kernel offsets `-radius..=radius` of the blur loop, as the list
`[-r, -r+1, ..., r]` (the source iterates an `isize` range). -/
def offs (r : Nat) : List Int :=
  List.map (fun i : Nat => (i : Int) - (r : Int)) (List.range (2 * r + 1))

/-- Byte read from the buffer slice; in-range reads (the only ones the
source performs on valid input) agree with the slice. -/
def byteAt (buf : List Nat) (i : Nat) : Nat := buf.getD i 0

/-- The blur accumulator `sum[c]` for the pixel at `(x, y)`: the source
folds `sum[c] += temp[((ny*w+nx)*4) as usize + c] as u32` over the kernel
offsets, skipping out-of-bounds neighbors; `u32` addition wraps mod `2^32`. -/
def chanSum (w h r : Nat) (temp : List Nat) (x y : Int) (c : Nat) : Nat :=
  (offs r).foldl (fun acc dy =>
    (offs r).foldl (fun acc dx =>
      if 0 ≤ x + dx ∧ x + dx < (w : Int) ∧ 0 ≤ y + dy ∧ y + dy < (h : Int) then
        (acc + byteAt temp (((y + dy) * (w : Int) + (x + dx)).toNat * 4 + c)) % U32M
      else acc) acc) 0

/-- The blur neighbor counter `count` for the pixel at `(x, y)`:
`count += 1` for each in-bounds neighbor, a `u32` like `sum`. -/
def nbCount (w h r : Nat) (x y : Int) : Nat :=
  (offs r).foldl (fun acc dy =>
    (offs r).foldl (fun acc dx =>
      if 0 ≤ x + dx ∧ x + dx < (w : Int) ∧ 0 ≤ y + dy ∧ y + dy < (h : Int) then
        (acc + 1) % U32M
      else acc) acc) 0

/-- One output byte of a blur pass: byte `i` of the live buffer after the
pass, where `i = (y*w + x)*4 + c`; the source writes
`buf[dst + c] = (sum[c] / count) as u8` (truncating `u32 -> u8` cast). -/
def blurPixelByte (w h r : Nat) (temp : List Nat) (i : Nat) : Nat :=
  let p := i / 4
  let c := i % 4
  let x : Int := (p % w : Nat)
  let y : Int := (p / w : Nat)
  (chanSum w h r temp x y c / nbCount w h r x y) % 256

/-- One blur pass: every byte of the live buffer is overwritten from the
snapshot `temp` taken at the start of the pass (the source writes each
destination exactly once and reads only `temp`). -/
def blurPass (w h r : Nat) (temp : List Nat) : List Nat :=
  (List.range (w * h * 4)).map (blurPixelByte w h r temp)

/-- `iterations` sequential blur passes; after each pass the source
refreshes the snapshot from the live buffer (`temp.copy_from_slice(buf)`),
so the passes compose as function iteration. -/
def blurIter (w h r n : Nat) (buf : List Nat) : List Nat :=
  (blurPass w h r)^[n] buf

/-- `process_image` of the blur plugin (blur_plugin/src/lib.rs lines 52-134):
`total_pixels = width.checked_mul(height)` (fail on overflow),
`len = total_pixels.saturating_mul(4)` (saturates, never fails),
fail on a null data pointer with `len > 0`, then (on a 64-bit platform the
usize/isize conversions always succeed) decode the parameters and run the
blur passes.  Returns the status code and the final buffer. -/
def blurProcess (width height : Nat) (dataNull : Bool)
    (params : RawParams BlurParams) (buf : List Nat) : Int × List Nat :=
  match checkedMul32 width height with
  | none => (-1, buf)
  | some totalPixels =>
    let len := saturatingMul32 totalPixels 4
    if 0 < len ∧ dataNull then (-1, buf)
    else
      match decodeParams blurDefaultParams params with
      | none => (-1, buf)
      | some p => (0, blurIter width height p.radius p.iterations buf)

/-- One mirror pass: byte `i = (y*w + x)*4 + c` of the live buffer is
copied from pixel `(src_x, src_y)` of the copy of the original buffer,
with `src_x = w.saturating_sub(1).saturating_sub(x)` when mirroring
horizontally (Lean's truncated `Nat` subtraction is exactly
`saturating_sub`), and likewise for `src_y`. -/
def mirrorPass (w h : Nat) (hor ver : Bool) (copy : List Nat) : List Nat :=
  (List.range (w * h * 4)).map (fun i =>
    let p := i / 4
    let c := i % 4
    let x := p % w
    let y := p / w
    let srcX := if hor then w - 1 - x else x
    let srcY := if ver then h - 1 - y else y
    byteAt copy ((srcY * w + srcX) * 4 + c))

/-- `process_image` of the mirror plugin (mirror_plugin/src/lib.rs lines
42-115): `total_pixels = width.checked_mul(height)` and
`buffer_size = total_pixels.checked_mul(4)`, both failing on overflow,
fail on a null data pointer with `len > 0`, then (64-bit platform) decode
the parameters and run the single mirror pass. -/
def mirrorProcess (width height : Nat) (dataNull : Bool)
    (params : RawParams MirrorParams) (buf : List Nat) : Int × List Nat :=
  match checkedMul32 width height with
  | none => (-1, buf)
  | some totalPixels =>
    match checkedMul32 totalPixels 4 with
    | none => (-1, buf)
    | some len =>
      if 0 < len ∧ dataNull then (-1, buf)
      else
        match decodeParams mirrorDefaultParams params with
        | none => (-1, buf)
        | some p => (0, mirrorPass width height p.horizontal p.vertical buf)

/-- The target platforms distinguished by `platform_library_name`
(image_processor/src/plugin_loader.rs lines 18-26). -/
inductive TargetOS where
  | windows
  | macos
  | linux
deriving DecidableEq

/-- `platform_library_name`: the OS-conventional dynamic module filename. -/
def platform_library_name (os : TargetOS) (name : String) : String :=
  match os with
  | TargetOS.windows => name ++ ".dll"
  | TargetOS.macos => "lib" ++ name ++ ".dylib"
  | TargetOS.linux => "lib" ++ name ++ ".so"

/-- The host-side errors `Plugin::load` can produce
(image_processor/src/error.rs): `PluginNotFound` carries the path;
`libloading::Error` converts to `LibraryLoad`. -/
inductive AppError where
  | pluginNotFound (path : String)
  | libraryLoad
deriving DecidableEq

/-- `Plugin::load` (image_processor/src/plugin_loader.rs lines 30-49),
parametrized over the filesystem (`pathExists`), the dynamic loader
(`libNew`, `none` = `Library::new` failed) and symbol resolution
(`libGet`, `none` = `lib.get` failed): build the platform filename, join
it to the directory, return `PluginNotFound` if the path does not exist,
otherwise open the library and resolve the symbol `"process_image"`. -/
def pluginLoad {L S : Type} (os : TargetOS) (pathExists : String → Bool)
    (libNew : String → Option L) (libGet : L → String → Option S)
    (pluginDir pluginName : String) : Except AppError (L × S) :=
  let libName := platform_library_name os pluginName
  let libPath := pluginDir ++ "/" ++ libName
  if pathExists libPath = false then Except.error (AppError.pluginNotFound libPath)
  else
    match libNew libPath with
    | none => Except.error AppError.libraryLoad
    | some lib =>
      match libGet lib "process_image" with
      | none => Except.error AppError.libraryLoad
      | some f => Except.ok (lib, f)

/-- The C types appearing in the `process_image` boundary. -/
inductive CType where
  | u32
  | mutPtrU8
  | constPtrCChar
  | i32
  | unitRet
deriving DecidableEq

/-- A C function signature: argument types and return type. -/
structure FnSig where
  args : List CType
  ret : CType
deriving DecidableEq

/-- The signature the loader resolves `process_image` at:
`pub type ProcessImageFn = unsafe extern "C" fn(u32, u32, *mut u8, *const c_char);`
(image_processor/src/plugin_loader.rs lines 6-11).  It has **no** return
type, i.e. it returns unit. -/
def ProcessImageFnSig : FnSig :=
  ⟨[CType.u32, CType.u32, CType.mutPtrU8, CType.constPtrCChar], CType.unitRet⟩

/-- Modelled from the spec: the ABI contract signature of section 4.2,
`(width: u32, height: u32, data: mutable byte pointer, params: optional
null-terminated C string) -> i32`. -/
def abiContractSig : FnSig :=
  ⟨[CType.u32, CType.u32, CType.mutPtrU8, CType.constPtrCChar], CType.i32⟩

/-- The signature the blur plugin actually exports
(`pub unsafe extern "C" fn process_image(u32, u32, *mut u8, *const c_char) -> i32`). -/
def blurExportSig : FnSig :=
  ⟨[CType.u32, CType.u32, CType.mutPtrU8, CType.constPtrCChar], CType.i32⟩

/-- The signature the mirror plugin actually exports (same as the blur one). -/
def mirrorExportSig : FnSig :=
  ⟨[CType.u32, CType.u32, CType.mutPtrU8, CType.constPtrCChar], CType.i32⟩

/-- `checked_mul` succeeds exactly on in-range products. -/
theorem checkedMul32_eq_some (a b : Nat) (hlt : a * b < U32M) :
    checkedMul32 a b = some (a * b) := by
  simp [checkedMul32, hlt]

/-- `checked_mul` fails exactly on out-of-range products. -/
theorem checkedMul32_eq_none (a b : Nat) (hge : U32M ≤ a * b) :
    checkedMul32 a b = none := by
  simp [checkedMul32]
  omega

/-- `saturating_mul` is the plain product when it fits. -/
theorem saturatingMul32_eq (a b : Nat) (hlt : a * b < U32M) :
    saturatingMul32 a b = a * b := by
  simp [saturatingMul32]
  omega

/-- A successfully validated blur call with decoded parameters runs the passes. -/
theorem blurProcess_valid (w h r n : Nat) (buf : List Nat) (hw : w * h < U32M) :
    blurProcess w h false (RawParams.decoded (some ⟨r, n⟩)) buf
      = (0, blurIter w h r n buf) := by
  simp [blurProcess, checkedMul32_eq_some w h hw, decodeParams]

/-- `w * h ≤ w * h * 4`. -/
theorem wh_le_wh4 (w h : Nat) : w * h ≤ w * h * 4 :=
  calc w * h = w * h * 1 := (Nat.mul_one _).symm
  _ ≤ w * h * 4 := Nat.mul_le_mul_left _ (by norm_num)

/-- A successfully validated mirror call with decoded parameters runs the pass. -/
theorem mirrorProcess_valid (w h : Nat) (hor ver : Bool) (buf : List Nat)
    (hw4 : w * h * 4 < U32M) :
    mirrorProcess w h false (RawParams.decoded (some ⟨hor, ver⟩)) buf
      = (0, mirrorPass w h hor ver buf) := by
  have hw : w * h < U32M := lt_of_le_of_lt (wh_le_wh4 w h) hw4
  simp [mirrorProcess, checkedMul32_eq_some w h hw,
    checkedMul32_eq_some (w * h) 4 hw4, decodeParams]

/-- Claim C1: the spec demands that the step `buffer_len = total_pixels * 4`
be overflow-checked, failing (with no buffer writes) whenever
`width * height * 4` overflows `u32`.  The mirror plugin does exactly that,
but the blur plugin computes the length with `saturating_mul`: at
`width = 65536, height = 32768` the true byte length `2^33` overflows
`u32`, yet blur's length computation silently saturates to `u32::MAX`,
validation passes, the filter stage runs over the full pixel range and
the call reports success instead of failure. -/
theorem blur_overflow_not_rejected :
    U32M ≤ 65536 * 32768 * 4 ∧
    saturatingMul32 (65536 * 32768) 4 = U32M - 1 ∧
    (blurProcess 65536 32768 false RawParams.null (List.replicate 8 0)).1 = 0 ∧
    (blurProcess 65536 32768 false RawParams.null (List.replicate 8 0)).2.length
      = 65536 * 32768 * 4 ∧
    mirrorProcess 65536 32768 false RawParams.null (List.replicate 8 0)
      = (-1, List.replicate 8 0) := by
  have h1 : (65536 : Nat) * 32768 < U32M := by norm_num [U32M]
  have h2 : U32M ≤ 65536 * 32768 * 4 := by norm_num [U32M]
  refine ⟨h2, by norm_num [saturatingMul32, U32M], ?_, ?_, ?_⟩
  · simp [blurProcess, checkedMul32_eq_some _ _ h1, decodeParams]
  · simp [blurProcess, checkedMul32_eq_some _ _ h1, decodeParams,
      blurIter, blurDefaultParams, blurPass]
  · simp [mirrorProcess, checkedMul32_eq_some _ _ h1,
      checkedMul32_eq_none (65536 * 32768) 4 (by norm_num [U32M])]

/-- Claim C3: the loader's `ProcessImageFn` type drops the `i32` return
of the ABI contract of spec section 4.2 (it returns unit), while both
plugins in this repository export `process_image` returning `i32`; the
status code is therefore never received through the resolved entry point. -/
theorem loader_signature_not_abi :
    ProcessImageFnSig ≠ abiContractSig ∧
    ProcessImageFnSig.args = abiContractSig.args ∧
    ProcessImageFnSig.ret = CType.unitRet ∧
    abiContractSig.ret = CType.i32 ∧
    blurExportSig = abiContractSig ∧
    mirrorExportSig = abiContractSig := by
  refine ⟨by decide, by decide, by decide, by decide, by decide, by decide⟩

/-- Claim C9: if the platform-conventional module path built from the
plugin name does not exist, `Plugin::load` fails with `PluginNotFound`
carrying that path, and this happens before any attempt to open the
module: the result is the same for every dynamic-loading behavior
(`libNew`, `libGet`). -/
theorem plugin_not_found_before_open {L S : Type}
    (os : TargetOS) (pathExists : String → Bool) (pluginDir pluginName : String)
    (hne : pathExists (pluginDir ++ "/" ++ platform_library_name os pluginName) = false) :
    ∀ (libNew : String → Option L) (libGet : L → String → Option S),
      pluginLoad os pathExists libNew libGet pluginDir pluginName
        = Except.error (AppError.pluginNotFound
            (pluginDir ++ "/" ++ platform_library_name os pluginName)) := by
  intro libNew libGet
  simp [pluginLoad, hne]

/-- Witness for C9: a filesystem with no files, a loader that would happily
open anything; the load still fails with `PluginNotFound` on the joined
path, without consulting the loader. -/
theorem plugin_not_found_before_open_witness :
    pluginLoad (L := Unit) (S := Unit) TargetOS.linux (fun _ => false)
      (fun _ => some ()) (fun _ _ => some ()) "plugins" "blur"
      = Except.error (AppError.pluginNotFound
          ("plugins" ++ "/" ++ platform_library_name TargetOS.linux "blur")) :=
  plugin_not_found_before_open TargetOS.linux (fun _ => false) "plugins" "blur"
    rfl (fun _ => some ()) (fun _ _ => some ())

/-- Claim C4: a configuration that fails to decode (malformed syntax,
wrong field type, missing field) makes either plugin behave exactly like
the documented default configuration, and the call still returns success
-- decode failure is never surfaced as a failure status code. -/
theorem decode_failure_acts_as_default (w h : Nat) (bbuf mbuf : List Nat)
    (hw4 : w * h * 4 < U32M) :
    blurProcess w h false (RawParams.decoded none) bbuf
        = blurProcess w h false (RawParams.decoded (some blurDefaultParams)) bbuf ∧
    (blurProcess w h false (RawParams.decoded none) bbuf).1 = 0 ∧
    mirrorProcess w h false (RawParams.decoded none) mbuf
        = mirrorProcess w h false (RawParams.decoded (some mirrorDefaultParams)) mbuf ∧
    (mirrorProcess w h false (RawParams.decoded none) mbuf).1 = 0 := by
  have hw : w * h < U32M := lt_of_le_of_lt (wh_le_wh4 w h) hw4
  refine ⟨rfl, ?_, rfl, ?_⟩
  · simp [blurProcess, checkedMul32_eq_some w h hw, decodeParams]
  · simp [mirrorProcess, checkedMul32_eq_some w h hw,
      checkedMul32_eq_some (w * h) 4 hw4, decodeParams]

/-- Witness for C4 on a 1-by-1 image. -/
theorem decode_failure_acts_as_default_witness :
    blurProcess 1 1 false (RawParams.decoded none) [9, 9, 9, 9]
        = blurProcess 1 1 false (RawParams.decoded (some blurDefaultParams)) [9, 9, 9, 9] ∧
    (blurProcess 1 1 false (RawParams.decoded none) [9, 9, 9, 9]).1 = 0 ∧
    mirrorProcess 1 1 false (RawParams.decoded none) [9, 9, 9, 9]
        = mirrorProcess 1 1 false (RawParams.decoded (some mirrorDefaultParams)) [9, 9, 9, 9] ∧
    (mirrorProcess 1 1 false (RawParams.decoded none) [9, 9, 9, 9]).1 = 0 :=
  decode_failure_acts_as_default 1 1 [9, 9, 9, 9] [9, 9, 9, 9] (by norm_num [U32M])

/-- Claim C5: a call with `width = 0` or `height = 0` succeeds (status 0)
and leaves the empty buffer unchanged, for any data-pointer nullity and
any parameter text (a parameter text is a UTF-8 string; a non-UTF-8
parameter pointer is rejected with -1 before the size is even relevant). -/
theorem zero_size_success (w h : Nat) (dataNull : Bool)
    (pb : RawParams BlurParams) (pm : RawParams MirrorParams)
    (hz : w = 0 ∨ h = 0)
    (hpb : pb ≠ RawParams.invalidUtf8) (hpm : pm ≠ RawParams.invalidUtf8) :
    blurProcess w h dataNull pb [] = (0, []) ∧
    mirrorProcess w h dataNull pm [] = (0, []) := by
  have hwh : w * h = 0 := by rcases hz with rfl | rfl <;> simp
  have hlt : w * h < U32M := by rw [hwh]; norm_num [U32M]
  have hpass : blurPass w h = fun r => fun _ : List Nat => ([] : List Nat) := by
    funext r buf
    simp [blurPass, hwh]
  obtain ⟨p, hp⟩ : ∃ p, decodeParams blurDefaultParams pb = some p := by
    cases pb with
    | null => exact ⟨_, rfl⟩
    | invalidUtf8 => exact absurd rfl hpb
    | decoded o => exact ⟨_, rfl⟩
  obtain ⟨q, hq⟩ : ∃ q, decodeParams mirrorDefaultParams pm = some q := by
    cases pm with
    | null => exact ⟨_, rfl⟩
    | invalidUtf8 => exact absurd rfl hpm
    | decoded o => exact ⟨_, rfl⟩
  constructor
  · have hiter : blurIter w h p.radius p.iterations [] = [] := by
      simp [blurIter]
      exact Function.iterate_fixed (by rw [hpass]) _
    simp [blurProcess, checkedMul32_eq_some w h hlt, hwh, saturatingMul32, hp, hiter]
  · have hm : mirrorPass w h q.horizontal q.vertical [] = [] := by
      simp [mirrorPass, hwh]
    simp [mirrorProcess, checkedMul32_eq_some w h hlt, hwh,
      checkedMul32_eq_some 0 4 (by norm_num [U32M]), hq, hm]

/-- Witness for C5: a 0-by-5 image with a null data pointer, a null blur
parameter pointer and an undecodable mirror parameter text. -/
theorem zero_size_success_witness :
    blurProcess 0 5 true RawParams.null [] = (0, []) ∧
    mirrorProcess 0 5 true (RawParams.decoded none) [] = (0, []) :=
  zero_size_success 0 5 true RawParams.null (RawParams.decoded none)
    (Or.inl rfl) (by decide) (by decide)

/-- Claim C6: blurring with `iterations = 2` equals blurring with
`iterations = 1`, feeding the resulting buffer back in as a fresh input,
and blurring once more with `iterations = 1` and the same radius --
the per-pass snapshot semantics compose sequentially. -/
theorem blur_iterations_compose (w h r : Nat) (buf : List Nat)
    (hlen : buf.length = w * h * 4) (hw4 : w * h * 4 < U32M) :
    blurProcess w h false (RawParams.decoded (some ⟨r, 2⟩)) buf
      = blurProcess w h false (RawParams.decoded (some ⟨r, 1⟩))
          (blurProcess w h false (RawParams.decoded (some ⟨r, 1⟩)) buf).2 := by
  have hw : w * h < U32M := lt_of_le_of_lt (wh_le_wh4 w h) hw4
  rw [blurProcess_valid w h r 2 buf hw, blurProcess_valid w h r 1 buf hw,
    blurProcess_valid w h r 1 _ hw]
  simp [blurIter]

/-- Witness for C6 on a 2-by-1 image. -/
theorem blur_iterations_compose_witness :
    blurProcess 2 1 false (RawParams.decoded (some ⟨1, 2⟩)) [1, 2, 3, 4, 5, 6, 7, 8]
      = blurProcess 2 1 false (RawParams.decoded (some ⟨1, 1⟩))
          (blurProcess 2 1 false (RawParams.decoded (some ⟨1, 1⟩))
            [1, 2, 3, 4, 5, 6, 7, 8]).2 :=
  blur_iterations_compose 2 1 1 [1, 2, 3, 4, 5, 6, 7, 8] (by decide) (by norm_num [U32M])

/-- The exact (unwrapped) neighbor count of the blur kernel at `(x, y)`. -/
def pureCount (w h r : Nat) (x y : Int) : Nat :=
  ((offs r).map (fun dy =>
    ((offs r).map (fun dx =>
      if 0 ≤ x + dx ∧ x + dx < (w : Int) ∧ 0 ≤ y + dy ∧ y + dy < (h : Int) then 1
      else 0)).sum)).sum

/-- The exact (unwrapped) channel sum of the blur kernel at `(x, y)`. -/
def pureChanSum (w h r : Nat) (temp : List Nat) (x y : Int) (c : Nat) : Nat :=
  ((offs r).map (fun dy =>
    ((offs r).map (fun dx =>
      if 0 ≤ x + dx ∧ x + dx < (w : Int) ∧ 0 ≤ y + dy ∧ y + dy < (h : Int) then
        byteAt temp (((y + dy) * (w : Int) + (x + dx)).toNat * 4 + c)
      else 0)).sum)).sum

/-- The in-bounds count along one axis: the number of offsets `d` in
`-r..=r` with `0 ≤ t + d < n`. -/
def axisCount (n r : Nat) (t : Int) : Nat :=
  ((offs r).map (fun d => if 0 ≤ t + d ∧ t + d < (n : Int) then 1 else 0)).sum

/-- A left fold whose step adds and reduces mod `U32M` equals the plain
sum reduced mod `U32M` once, provided the seed is already reduced. -/
theorem foldl_wrapsum {α : Type} (g : α → Nat) (step : Nat → α → Nat)
    (hstep : ∀ a x, a < U32M → step a x = (a + g x) % U32M) :
    ∀ (l : List α) (a : Nat), a < U32M → l.foldl step a = (a + (l.map g).sum) % U32M := by
  intro l
  induction l with
  | nil =>
    intro a ha
    simpa using (Nat.mod_eq_of_lt ha).symm
  | cons d t ih =>
    intro a ha
    have hM : 0 < U32M := by norm_num [U32M]
    have h1 : step a d = (a + g d) % U32M := hstep a d ha
    have h2 : step a d < U32M := h1 ▸ Nat.mod_lt _ hM
    calc (d :: t).foldl step a = t.foldl step (step a d) := rfl
    _ = (step a d + (t.map g).sum) % U32M := ih (step a d) h2
    _ = ((a + g d) % U32M + (t.map g).sum) % U32M := by rw [h1]
    _ = (a + g d + (t.map g).sum) % U32M := Nat.mod_add_mod _ _ _
    _ = (a + ((d :: t).map g).sum) % U32M := by
        simp [Nat.add_assoc]

/-- The wrapped `u32` channel sum is the exact channel sum reduced mod `2^32`. -/
theorem chanSum_eq_pure (w h r : Nat) (temp : List Nat) (x y : Int) (c : Nat) :
    chanSum w h r temp x y c = pureChanSum w h r temp x y c % U32M := by
  have hM : 0 < U32M := by norm_num [U32M]
  have inner : ∀ (dy : Int) (a : Nat), a < U32M →
      (offs r).foldl (fun acc dx =>
        if 0 ≤ x + dx ∧ x + dx < (w : Int) ∧ 0 ≤ y + dy ∧ y + dy < (h : Int) then
          (acc + byteAt temp (((y + dy) * (w : Int) + (x + dx)).toNat * 4 + c)) % U32M
        else acc) a
      = (a + ((offs r).map (fun dx =>
          if 0 ≤ x + dx ∧ x + dx < (w : Int) ∧ 0 ≤ y + dy ∧ y + dy < (h : Int) then
            byteAt temp (((y + dy) * (w : Int) + (x + dx)).toNat * 4 + c)
          else 0)).sum) % U32M := by
    intro dy a ha
    refine foldl_wrapsum _ _ ?_ (offs r) a ha
    intro a' dx ha'
    by_cases hcond : 0 ≤ x + dx ∧ x + dx < (w : Int) ∧ 0 ≤ y + dy ∧ y + dy < (h : Int)
    · simp [hcond]
    · simp [hcond, Nat.mod_eq_of_lt ha']
  have outer := foldl_wrapsum
    (fun dy => ((offs r).map (fun dx =>
      if 0 ≤ x + dx ∧ x + dx < (w : Int) ∧ 0 ≤ y + dy ∧ y + dy < (h : Int) then
        byteAt temp (((y + dy) * (w : Int) + (x + dx)).toNat * 4 + c)
      else 0)).sum)
    (fun acc dy => (offs r).foldl (fun acc dx =>
      if 0 ≤ x + dx ∧ x + dx < (w : Int) ∧ 0 ≤ y + dy ∧ y + dy < (h : Int) then
        (acc + byteAt temp (((y + dy) * (w : Int) + (x + dx)).toNat * 4 + c)) % U32M
      else acc) acc)
    (fun a dy ha => inner dy a ha) (offs r) 0 hM
  simpa [chanSum, pureChanSum] using outer

/-- The wrapped `u32` neighbor count is the exact count reduced mod `2^32`. -/
theorem nbCount_eq_pure (w h r : Nat) (x y : Int) :
    nbCount w h r x y = pureCount w h r x y % U32M := by
  have hM : 0 < U32M := by norm_num [U32M]
  have inner : ∀ (dy : Int) (a : Nat), a < U32M →
      (offs r).foldl (fun acc dx =>
        if 0 ≤ x + dx ∧ x + dx < (w : Int) ∧ 0 ≤ y + dy ∧ y + dy < (h : Int) then
          (acc + 1) % U32M
        else acc) a
      = (a + ((offs r).map (fun dx =>
          if 0 ≤ x + dx ∧ x + dx < (w : Int) ∧ 0 ≤ y + dy ∧ y + dy < (h : Int) then 1
          else 0)).sum) % U32M := by
    intro dy a ha
    refine foldl_wrapsum _ _ ?_ (offs r) a ha
    intro a' dx ha'
    by_cases hcond : 0 ≤ x + dx ∧ x + dx < (w : Int) ∧ 0 ≤ y + dy ∧ y + dy < (h : Int)
    · simp [hcond]
    · simp [hcond, Nat.mod_eq_of_lt ha']
  have outer := foldl_wrapsum
    (fun dy => ((offs r).map (fun dx =>
      if 0 ≤ x + dx ∧ x + dx < (w : Int) ∧ 0 ≤ y + dy ∧ y + dy < (h : Int) then 1
      else 0)).sum)
    (fun acc dy => (offs r).foldl (fun acc dx =>
      if 0 ≤ x + dx ∧ x + dx < (w : Int) ∧ 0 ≤ y + dy ∧ y + dy < (h : Int) then
        (acc + 1) % U32M
      else acc) acc)
    (fun a dy ha => inner dy a ha) (offs r) 0 hM
  simpa [nbCount, pureCount] using outer

/-- Summing `if P x then c else 0` factors the constant out. -/
theorem sum_map_ite_const {α : Type} (l : List α) (P : α → Prop) [DecidablePred P] (c : Nat) :
    (l.map (fun x => if P x then c else 0)).sum
      = c * (l.map (fun x => if P x then 1 else 0)).sum := by
  induction l with
  | nil => simp
  | cons d t ih =>
    by_cases hd : P d <;> simp [hd, ih, Nat.mul_add]

/-- A sum of zero-one indicators is at most the list length. -/
theorem sum_map_ite_le_length {α : Type} (l : List α) (P : α → Prop) [DecidablePred P] :
    (l.map (fun x => if P x then 1 else 0)).sum ≤ l.length := by
  induction l with
  | nil => simp
  | cons d t ih =>
    by_cases hd : P d <;> simp [hd] <;> omega

/-- Counting the naturals below `n` inside the interval `[a, b)`. -/
theorem range_sum_interval (a b : Nat) :
    ∀ n, ((List.range n).map (fun i => if a ≤ i ∧ i < b then 1 else 0)).sum
      = min n b - min n a := by
  intro n
  induction n with
  | zero => simp
  | succ m ih =>
    rw [List.range_succ, List.map_append, List.sum_append, ih]
    by_cases hm : a ≤ m ∧ m < b <;> simp [hm] <;> omega

/-- `offs r` has `2*r + 1` elements. -/
theorem offs_length (r : Nat) : (offs r).length = 2 * r + 1 := by
  rw [offs, List.length_map, List.length_range]

/-- The axis count is at most the kernel width `2*r + 1`. -/
theorem axisCount_le (n r : Nat) (t : Int) : axisCount n r t ≤ 2 * r + 1 := by
  have := sum_map_ite_le_length (offs r)
    (fun d => 0 ≤ t + d ∧ t + d < (n : Int))
  simpa [axisCount, offs_length] using this

/-- The axis count is at least 1 when the center itself is in bounds. -/
theorem axisCount_pos (n r : Nat) (t : Int) (h0 : 0 ≤ t) (hn : t < (n : Int)) :
    1 ≤ axisCount n r t := by
  have hmem : (0 : Int) ∈ offs r := by
    simp only [offs, List.mem_map]
    exact ⟨r, by simp only [List.mem_range]; omega, by simp⟩
  have h1 := List.single_le_sum
    (l := (offs r).map (fun d => if 0 ≤ t + d ∧ t + d < (n : Int) then 1 else 0))
    (fun x _ => Nat.zero_le x) _ (List.mem_map_of_mem _ hmem)
  simpa [axisCount, h0, hn] using h1

/-- Closed form of the axis count at a left-edge coordinate `t = 0`. -/
theorem axisCount_zero (n r : Nat) :
    axisCount n r 0 = min (2 * r + 1) (r + n) - r := by
  have hfun : ((fun d : Int => if 0 ≤ (0 : Int) + d ∧ (0 : Int) + d < (n : Int) then (1 : Nat) else 0)
        ∘ (fun i : Nat => (i : Int) - (r : Int)))
      = fun i : Nat => if r ≤ i ∧ i < r + n then 1 else 0 := by
    funext i
    simp only [Function.comp]
    by_cases hc : 0 ≤ (0 : Int) + ((i : Int) - (r : Int)) ∧
        (0 : Int) + ((i : Int) - (r : Int)) < (n : Int)
    · rw [if_pos hc, if_pos (by omega)]
    · rw [if_neg hc, if_neg (by omega)]
  rw [axisCount, offs, List.map_map, hfun, range_sum_interval]
  omega

/-- The kernel count factors into the two axis counts. -/
theorem pureCount_factor (w h r : Nat) (x y : Int) :
    pureCount w h r x y = axisCount w r x * axisCount h r y := by
  have hrow : ∀ dy : Int,
      ((offs r).map (fun dx =>
        if 0 ≤ x + dx ∧ x + dx < (w : Int) ∧ 0 ≤ y + dy ∧ y + dy < (h : Int) then 1
        else 0)).sum
      = if 0 ≤ y + dy ∧ y + dy < (h : Int) then axisCount w r x else 0 := by
    intro dy
    by_cases hy : 0 ≤ y + dy ∧ y + dy < (h : Int)
    · rw [if_pos hy, axisCount]
      refine congrArg List.sum (List.map_congr_left ?_)
      intro dx _
      by_cases hx : 0 ≤ x + dx ∧ x + dx < (w : Int)
      · rw [if_pos ⟨hx.1, hx.2, hy.1, hy.2⟩, if_pos hx]
      · rw [if_neg (by tauto), if_neg hx]
    · rw [if_neg hy]
      refine List.sum_eq_zero ?_
      intro v hv
      rcases List.mem_map.mp hv with ⟨dx, _, hdx⟩
      rw [← hdx, if_neg (by tauto)]
  calc pureCount w h r x y
      = ((offs r).map (fun dy =>
          if 0 ≤ y + dy ∧ y + dy < (h : Int) then axisCount w r x else 0)).sum := by
        rw [pureCount]
        exact congrArg List.sum (List.map_congr_left (fun dy _ => hrow dy))
  _ = axisCount w r x * axisCount h r y := by
        rw [sum_map_ite_const (offs r) (fun dy => 0 ≤ y + dy ∧ y + dy < (h : Int))
          (axisCount w r x)]
        simp [axisCount]

/-- Factoring a constant multiplier out of a list sum. -/
theorem sum_map_mul_left {α : Type} (l : List α) (f : α → Nat) (c : Nat) :
    (l.map (fun x => c * f x)).sum = c * (l.map f).sum := by
  induction l with
  | nil => simp
  | cons d t ih => simp [ih, Nat.mul_add]

/-- An in-bounds neighbor coordinate indexes a pixel below `w * h`. -/
theorem inb_pix_lt (w h : Nat) (nx ny : Int)
    (h1 : 0 ≤ nx) (h2 : nx < (w : Int)) (h3 : 0 ≤ ny) (h4 : ny < (h : Int)) :
    (ny * (w : Int) + nx).toNat < w * h := by
  have hnn : 0 ≤ ny * (w : Int) := mul_nonneg h3 (by positivity)
  have hlt : ny * (w : Int) + nx < ((w * h : Nat) : Int) := by
    push_cast
    nlinarith
  omega

/-- On a buffer whose channel `c` holds the constant `v` at every pixel,
the exact channel sum is the neighbor count times `v`. -/
theorem pureChanSum_uniform (w h r : Nat) (temp : List Nat) (x y : Int) (c v : Nat)
    (hv : ∀ pix, pix < w * h → byteAt temp (pix * 4 + c) = v) :
    pureChanSum w h r temp x y c = pureCount w h r x y * v := by
  have hrow : ∀ dy : Int,
      ((offs r).map (fun dx =>
        if 0 ≤ x + dx ∧ x + dx < (w : Int) ∧ 0 ≤ y + dy ∧ y + dy < (h : Int) then
          byteAt temp (((y + dy) * (w : Int) + (x + dx)).toNat * 4 + c)
        else 0)).sum
      = v * ((offs r).map (fun dx =>
          if 0 ≤ x + dx ∧ x + dx < (w : Int) ∧ 0 ≤ y + dy ∧ y + dy < (h : Int) then 1
          else 0)).sum := by
    intro dy
    rw [← sum_map_ite_const (offs r)
      (fun dx => 0 ≤ x + dx ∧ x + dx < (w : Int) ∧ 0 ≤ y + dy ∧ y + dy < (h : Int)) v]
    refine congrArg List.sum (List.map_congr_left ?_)
    intro dx _
    by_cases hc : 0 ≤ x + dx ∧ x + dx < (w : Int) ∧ 0 ≤ y + dy ∧ y + dy < (h : Int)
    · rw [if_pos hc, if_pos hc]
      exact hv _ (inb_pix_lt w h (x + dx) (y + dy) hc.1 hc.2.1 hc.2.2.1 hc.2.2.2)
    · rw [if_neg hc, if_neg hc]
  calc pureChanSum w h r temp x y c
      = ((offs r).map (fun dy => v * ((offs r).map (fun dx =>
          if 0 ≤ x + dx ∧ x + dx < (w : Int) ∧ 0 ≤ y + dy ∧ y + dy < (h : Int) then 1
          else 0)).sum)).sum := by
        rw [pureChanSum]
        exact congrArg List.sum (List.map_congr_left (fun dy _ => hrow dy))
  _ = v * pureCount w h r x y := by
        rw [sum_map_mul_left, pureCount]
  _ = pureCount w h r x y * v := Nat.mul_comm _ _

/-- Bytes of an RGBA8 buffer are below 256, and so is any defaulted read. -/
theorem byteAt_lt_256 (buf : List Nat) (hb : ∀ b ∈ buf, b < 256) (i : Nat) :
    byteAt buf i < 256 := by
  by_cases hi : i < buf.length
  · rw [byteAt, List.getD_eq_getElem buf 0 hi]
    exact hb _ (List.getElem_mem hi)
  · rw [byteAt, List.getD_eq_default buf 0 (by omega)]
    norm_num

/-- The exact channel sum of a byte-valued buffer is at most
`count * 255`. -/
theorem pureChanSum_le (w h r : Nat) (temp : List Nat) (x y : Int) (c : Nat)
    (hb : ∀ b ∈ temp, b < 256) :
    pureChanSum w h r temp x y c ≤ pureCount w h r x y * 255 := by
  have hrow : ∀ dy : Int,
      ((offs r).map (fun dx =>
        if 0 ≤ x + dx ∧ x + dx < (w : Int) ∧ 0 ≤ y + dy ∧ y + dy < (h : Int) then
          byteAt temp (((y + dy) * (w : Int) + (x + dx)).toNat * 4 + c)
        else 0)).sum
      ≤ 255 * ((offs r).map (fun dx =>
          if 0 ≤ x + dx ∧ x + dx < (w : Int) ∧ 0 ≤ y + dy ∧ y + dy < (h : Int) then 1
          else 0)).sum := by
    intro dy
    rw [← sum_map_ite_const (offs r)
      (fun dx => 0 ≤ x + dx ∧ x + dx < (w : Int) ∧ 0 ≤ y + dy ∧ y + dy < (h : Int)) 255]
    refine List.sum_le_sum ?_
    intro dx _
    by_cases hc : 0 ≤ x + dx ∧ x + dx < (w : Int) ∧ 0 ≤ y + dy ∧ y + dy < (h : Int)
    · rw [if_pos hc, if_pos hc]
      exact Nat.le_of_lt_succ (byteAt_lt_256 temp hb _)
    · rw [if_neg hc, if_neg hc]
  calc pureChanSum w h r temp x y c
      ≤ ((offs r).map (fun dy => 255 * ((offs r).map (fun dx =>
          if 0 ≤ x + dx ∧ x + dx < (w : Int) ∧ 0 ≤ y + dy ∧ y + dy < (h : Int) then 1
          else 0)).sum)).sum := by
        rw [pureChanSum]
        exact List.sum_le_sum (fun dy _ => hrow dy)
  _ = 255 * pureCount w h r x y := by rw [sum_map_mul_left, pureCount]
  _ = pureCount w h r x y * 255 := Nat.mul_comm _ _

/-- The neighbor count is at most the full kernel size `(2*r+1)^2`. -/
theorem pureCount_le (w h r : Nat) (x y : Int) :
    pureCount w h r x y ≤ (2 * r + 1) ^ 2 := by
  rw [pureCount_factor, pow_two]
  exact Nat.mul_le_mul (axisCount_le w r x) (axisCount_le h r y)

/-- The neighbor count is positive at an in-bounds pixel. -/
theorem pureCount_pos (w h r : Nat) (x y : Int)
    (hx0 : 0 ≤ x) (hxw : x < (w : Int)) (hy0 : 0 ≤ y) (hyh : y < (h : Int)) :
    1 ≤ pureCount w h r x y := by
  rw [pureCount_factor]
  exact Nat.one_le_iff_ne_zero.mpr (Nat.mul_ne_zero
    (by have := axisCount_pos w r x hx0 hxw; omega)
    (by have := axisCount_pos h r y hy0 hyh; omega))

/-- A blur pass produces exactly `w*h*4` bytes. -/
theorem blurPass_length (w h r : Nat) (temp : List Nat) :
    (blurPass w h r temp).length = w * h * 4 := by
  rw [blurPass, List.length_map, List.length_range]

/-- The neighbor count is `1` on a 1-by-1 image. -/
theorem pureCount_one_one (r : Nat) : pureCount 1 1 r 0 0 = 1 := by
  rw [pureCount_factor, axisCount_zero]
  have h1 : min (2 * r + 1) (r + 1) - r = 1 := by omega
  rw [h1]

/-- On a buffer that is a single color `pal` at every pixel, a blur pass
leaves each byte unchanged, provided either the full kernel sum fits the
`u32` accumulator or the image is 1-by-1 (where the count is 1). -/
theorem blurPixelByte_uniform (w h r : Nat) (temp : List Nat) (pal : Nat → Nat) (i : Nat)
    (hi : i < w * h * 4)
    (hpal : ∀ c, c < 4 → pal c < 256)
    (hv : ∀ pix, pix < w * h → ∀ c, c < 4 → byteAt temp (pix * 4 + c) = pal c)
    (hnof : (2 * r + 1) ^ 2 * 255 < U32M ∨ (w = 1 ∧ h = 1)) :
    blurPixelByte w h r temp i = pal (i % 4) := by
  rcases Nat.eq_zero_or_pos w with hw0 | hw
  · subst hw0; simp at hi
  rcases Nat.eq_zero_or_pos h with hh0 | hh
  · subst hh0; simp at hi
  have hpwh : i / 4 < w * h := by omega
  have hx : i / 4 % w < w := Nat.mod_lt _ hw
  have hy : i / 4 / w < h := by
    rw [Nat.div_lt_iff_lt_mul hw, Nat.mul_comm h w]
    exact hpwh
  have hc4 : i % 4 < 4 := by omega
  have hxI : (0 : Int) ≤ ((i / 4 % w : Nat) : Int) := Int.ofNat_nonneg _
  have hxI2 : ((i / 4 % w : Nat) : Int) < (w : Int) := by exact_mod_cast hx
  have hyI : (0 : Int) ≤ ((i / 4 / w : Nat) : Int) := Int.ofNat_nonneg _
  have hyI2 : ((i / 4 / w : Nat) : Int) < (h : Int) := by exact_mod_cast hy
  have hcnt_pos : 1 ≤ pureCount w h r ((i / 4 % w : Nat) : Int) ((i / 4 / w : Nat) : Int) :=
    pureCount_pos w h r _ _ hxI hxI2 hyI hyI2
  have hcnt_fit : pureCount w h r ((i / 4 % w : Nat) : Int) ((i / 4 / w : Nat) : Int) < U32M := by
    rcases hnof with hk | ⟨hw1, hh1⟩
    · have h1 := pureCount_le w h r ((i / 4 % w : Nat) : Int) ((i / 4 / w : Nat) : Int)
      have h2 : (2 * r + 1) ^ 2 ≤ (2 * r + 1) ^ 2 * 255 := by
        calc (2 * r + 1) ^ 2 = (2 * r + 1) ^ 2 * 1 := (Nat.mul_one _).symm
        _ ≤ (2 * r + 1) ^ 2 * 255 := Nat.mul_le_mul_left _ (by norm_num)
      exact lt_of_le_of_lt (le_trans h1 h2) hk
    · subst hw1; subst hh1
      have hp0 : i / 4 = 0 := by omega
      rw [hp0]
      simp [pureCount_one_one]
      norm_num [U32M]
  have hfit : pureCount w h r ((i / 4 % w : Nat) : Int) ((i / 4 / w : Nat) : Int) * pal (i % 4)
      < U32M := by
    rcases hnof with hk | ⟨hw1, hh1⟩
    · have h1 := pureCount_le w h r ((i / 4 % w : Nat) : Int) ((i / 4 / w : Nat) : Int)
      have h2 : pal (i % 4) ≤ 255 := Nat.le_of_lt_succ (hpal _ hc4)
      calc pureCount w h r _ _ * pal (i % 4) ≤ (2 * r + 1) ^ 2 * 255 := Nat.mul_le_mul h1 h2
      _ < U32M := hk
    · subst hw1; subst hh1
      have hp0 : i / 4 = 0 := by omega
      rw [hp0]
      simp [pureCount_one_one]
      have := hpal _ hc4
      norm_num [U32M]
      omega
  have hcs : chanSum w h r temp ((i / 4 % w : Nat) : Int) ((i / 4 / w : Nat) : Int) (i % 4)
      = pureCount w h r ((i / 4 % w : Nat) : Int) ((i / 4 / w : Nat) : Int) * pal (i % 4) := by
    rw [chanSum_eq_pure,
      pureChanSum_uniform w h r temp _ _ (i % 4) (pal (i % 4))
        (fun pix hpix => hv pix hpix (i % 4) hc4),
      Nat.mod_eq_of_lt hfit]
  have hnc : nbCount w h r ((i / 4 % w : Nat) : Int) ((i / 4 / w : Nat) : Int)
      = pureCount w h r ((i / 4 % w : Nat) : Int) ((i / 4 / w : Nat) : Int) := by
    rw [nbCount_eq_pure, Nat.mod_eq_of_lt hcnt_fit]
  show (chanSum w h r temp ((i / 4 % w : Nat) : Int) ((i / 4 / w : Nat) : Int) (i % 4)
      / nbCount w h r ((i / 4 % w : Nat) : Int) ((i / 4 / w : Nat) : Int)) % 256 = pal (i % 4)
  rw [hcs, hnc, Nat.mul_div_cancel_left _ (by omega : 0 < pureCount w h r _ _),
    Nat.mod_eq_of_lt (hpal _ hc4)]

/-- A single-color buffer is a fixed point of one blur pass. -/
theorem blurPass_uniform (w h r : Nat) (temp : List Nat) (pal : Nat → Nat)
    (hlen : temp.length = w * h * 4)
    (hpal : ∀ c, c < 4 → pal c < 256)
    (hv : ∀ pix, pix < w * h → ∀ c, c < 4 → byteAt temp (pix * 4 + c) = pal c)
    (hnof : (2 * r + 1) ^ 2 * 255 < U32M ∨ (w = 1 ∧ h = 1)) :
    blurPass w h r temp = temp := by
  refine List.ext_getElem (by rw [blurPass_length, hlen]) ?_
  intro i h1 h2
  have hi : i < w * h * 4 := by rwa [blurPass_length] at h1
  have hL : (blurPass w h r temp)[i] = blurPixelByte w h r temp i := by
    simp [blurPass]
  rw [hL, blurPixelByte_uniform w h r temp pal i hi hpal hv hnof]
  have hR : temp[i] = byteAt temp ((i / 4) * 4 + i % 4) := by
    rw [byteAt, show i / 4 * 4 + i % 4 = i from by omega, List.getD_eq_getElem temp 0 h2]
  rw [hR, hv (i / 4) (by omega) (i % 4) (by omega)]

/-- Claim C7 (amended): on a uniform-color image -- every pixel carrying
the same four channel bytes `pal 0 .. pal 3` -- the blur plugin's
`process_image` succeeds and leaves every byte unchanged for every
`iterations`, provided the full kernel sum fits the `u32` accumulator
(`(2*radius+1)^2 * 255 < 2^32`, i.e. `radius ≤ 2051`) or the image is
1-by-1 (where it holds for every radius).  Without that proviso the claim
is false: see `blur_uniform_not_fixed`. -/
theorem blur_uniform_fixed_point (w h r n : Nat) (buf : List Nat) (pal : Nat → Nat)
    (hlen : buf.length = w * h * 4) (hw4 : w * h * 4 < U32M)
    (hpal : ∀ c, c < 4 → pal c < 256)
    (hv : ∀ pix, pix < w * h → ∀ c, c < 4 → byteAt buf (pix * 4 + c) = pal c)
    (hnof : (2 * r + 1) ^ 2 * 255 < U32M ∨ (w = 1 ∧ h = 1)) :
    blurProcess w h false (RawParams.decoded (some ⟨r, n⟩)) buf = (0, buf) := by
  have hw : w * h < U32M := lt_of_le_of_lt (wh_le_wh4 w h) hw4
  rw [blurProcess_valid w h r n buf hw]
  have hfix : blurPass w h r buf = buf := blurPass_uniform w h r buf pal hlen hpal hv hnof
  rw [blurIter, Function.iterate_fixed hfix n]

/-- Witness for the amended C7: a uniform 2-by-2 image with pixel
`(5, 6, 7, 8)`, radius 3, two iterations. -/
theorem blur_uniform_fixed_point_witness :
    blurProcess 2 2 false (RawParams.decoded (some ⟨3, 2⟩))
        [5, 6, 7, 8, 5, 6, 7, 8, 5, 6, 7, 8, 5, 6, 7, 8]
      = (0, [5, 6, 7, 8, 5, 6, 7, 8, 5, 6, 7, 8, 5, 6, 7, 8]) :=
  blur_uniform_fixed_point 2 2 3 2
    [5, 6, 7, 8, 5, 6, 7, 8, 5, 6, 7, 8, 5, 6, 7, 8] (fun c => c + 5)
    (by decide) (by norm_num [U32M]) (by decide) (by decide)
    (Or.inl (by norm_num [U32M]))

/-- Reading inside a replicated buffer yields the replicated byte. -/
theorem byteAt_replicate (n v i : Nat) (h : i < n) : byteAt (List.replicate n v) i = v := by
  rw [byteAt, List.getD_eq_getElem _ 0 (by simpa using h), List.getElem_replicate]

/-- A blur pass byte, read back from the produced list. -/
theorem blurPass_getD (w h r : Nat) (temp : List Nat) (i : Nat) (hi : i < w * h * 4) :
    (blurPass w h r temp).getD i 0 = blurPixelByte w h r temp i := by
  have hl : i < (blurPass w h r temp).length := by rw [blurPass_length]; exact hi
  rw [List.getD_eq_getElem _ 0 hl]
  simp [blurPass]

/-- On a 4105-by-4105 image with radius 4105, the kernel at the corner
pixel counts the whole image: `4105 * 4105 = 16851025` neighbors. -/
theorem pureCount_4105 : pureCount 4105 4105 4105 0 0 = 16851025 := by
  rw [pureCount_factor, axisCount_zero]
  norm_num

/-- The exact corner channel sum of the uniform-255 4105-by-4105 image at
radius 4105: `16851025 * 255 = 4297011375`, which exceeds `u32::MAX`. -/
theorem pureChanSum_4105 :
    pureChanSum 4105 4105 4105 (List.replicate 67404100 255) 0 0 0 = 4297011375 := by
  have hv : ∀ pix, pix < 4105 * 4105 →
      byteAt (List.replicate 67404100 255) (pix * 4 + 0) = 255 := by
    intro pix hpix
    exact byteAt_replicate _ _ _ (by omega)
  rw [pureChanSum_uniform 4105 4105 4105 _ 0 0 0 255 hv, pureCount_4105]

/-- The wrapped `u32` accumulator value at that corner:
`4297011375 mod 2^32 = 2044079`. -/
theorem chanSum_4105 :
    chanSum 4105 4105 4105 (List.replicate 67404100 255) 0 0 0 = 2044079 := by
  rw [chanSum_eq_pure, pureChanSum_4105]
  norm_num [U32M]

/-- The wrapped neighbor counter at that corner (no wrap: it is below `2^32`). -/
theorem nbCount_4105 : nbCount 4105 4105 4105 0 0 = 16851025 := by
  rw [nbCount_eq_pure, pureCount_4105]
  norm_num [U32M]

/-- Claim C2 counterexample: the input `width = height = 4105`
(`w*h*4 = 67404100` fits `u32`, so validation accepts it), radius `4105`
(no validation step bounds the radius), uniform 255 image: the exact
corner channel sum is `4297011375 ≥ 2^32`, so the `u32` accumulator is
not wide enough and the channel-sum additions wrap, producing `2044079`
instead of the true sum. -/
theorem blur_channel_sum_overflows :
    4105 * 4105 * 4 < U32M ∧
    pureChanSum 4105 4105 4105 (List.replicate 67404100 255) 0 0 0 = 4297011375 ∧
    U32M ≤ 4297011375 ∧
    chanSum 4105 4105 4105 (List.replicate 67404100 255) 0 0 0 = 2044079 ∧
    chanSum 4105 4105 4105 (List.replicate 67404100 255) 0 0 0
      ≠ pureChanSum 4105 4105 4105 (List.replicate 67404100 255) 0 0 0 := by
  refine ⟨by norm_num [U32M], pureChanSum_4105, by norm_num [U32M], chanSum_4105, ?_⟩
  rw [chanSum_4105, pureChanSum_4105]
  norm_num

/-- Claim C2 (amended): for every image and every radius whose full
kernel sum fits the accumulator -- `(2*radius+1)^2 * 255 < 2^32`, i.e.
`radius ≤ 2051` -- the `u32` channel-sum accumulator never wraps: the
wrapped sum equals the exact sum.  (The default radius 1 needs only
`9 * 255 = 2295`.)  For larger accepted radii the accumulator can wrap:
see `blur_channel_sum_overflows`. -/
theorem blur_channel_sum_no_overflow (w h r : Nat) (temp : List Nat) (x y : Int) (c : Nat)
    (hb : ∀ b ∈ temp, b < 256) (hr : (2 * r + 1) ^ 2 * 255 < U32M) :
    pureChanSum w h r temp x y c < U32M ∧
    chanSum w h r temp x y c = pureChanSum w h r temp x y c := by
  have h1 : pureChanSum w h r temp x y c ≤ pureCount w h r x y * 255 :=
    pureChanSum_le w h r temp x y c hb
  have h2 : pureCount w h r x y * 255 ≤ (2 * r + 1) ^ 2 * 255 :=
    Nat.mul_le_mul_right 255 (pureCount_le w h r x y)
  have h3 : pureChanSum w h r temp x y c < U32M := lt_of_le_of_lt (le_trans h1 h2) hr
  exact ⟨h3, by rw [chanSum_eq_pure, Nat.mod_eq_of_lt h3]⟩

/-- Witness for the amended C2 on a 1-by-1 image with radius 1. -/
theorem blur_channel_sum_no_overflow_witness :
    pureChanSum 1 1 1 [7, 7, 7, 7] 0 0 0 < U32M ∧
    chanSum 1 1 1 [7, 7, 7, 7] 0 0 0 = pureChanSum 1 1 1 [7, 7, 7, 7] 0 0 0 :=
  blur_channel_sum_no_overflow 1 1 1 [7, 7, 7, 7] 0 0 0 (by decide) (by norm_num [U32M])

/-- The blur output byte, with the pixel decomposition spelled out. -/
theorem blurPixelByte_eq (w h r : Nat) (temp : List Nat) (i : Nat) :
    blurPixelByte w h r temp i
      = (chanSum w h r temp ((i / 4 % w : Nat) : Int) ((i / 4 / w : Nat) : Int) (i % 4)
          / nbCount w h r ((i / 4 % w : Nat) : Int) ((i / 4 / w : Nat) : Int)) % 256 := rfl

/-- Claim C7 counterexample: the uniform-255 4105-by-4105 image with
radius 4105 and one iteration is accepted by validation (status 0), yet
the corner byte changes from 255 to `(4297011375 mod 2^32) / 16851025 = 0`
because the `u32` accumulator wraps -- blur on a uniform image is not a
fixed point for every radius.  (In a debug build the same input aborts on
the overflow check instead; either way the claim fails.) -/
theorem blur_uniform_not_fixed :
    (blurProcess 4105 4105 false (RawParams.decoded (some ⟨4105, 1⟩))
        (List.replicate 67404100 255)).1 = 0 ∧
    (blurProcess 4105 4105 false (RawParams.decoded (some ⟨4105, 1⟩))
        (List.replicate 67404100 255)).2.getD 0 0 = 0 ∧
    (List.replicate 67404100 255).getD 0 0 = 255 := by
  have hw : (4105 : Nat) * 4105 < U32M := by norm_num [U32M]
  rw [blurProcess_valid 4105 4105 4105 1 _ hw]
  refine ⟨rfl, ?_, byteAt_replicate 67404100 255 0 (by norm_num)⟩
  simp only
  rw [blurIter, Function.iterate_one,
    blurPass_getD 4105 4105 4105 _ 0 (by norm_num), blurPixelByte_eq]
  norm_num [chanSum_4105, nbCount_4105]

/-- A mirror pass produces exactly `w*h*4` bytes. -/
theorem mirrorPass_length (w h : Nat) (hor ver : Bool) (copy : List Nat) :
    (mirrorPass w h hor ver copy).length = w * h * 4 := by
  rw [mirrorPass, List.length_map, List.length_range]

/-- Row-major pixel indices stay below the buffer size. -/
theorem pix_index_lt (w h x y c : Nat) (hx : x < w) (hy : y < h) (hc : c < 4) :
    (y * w + x) * 4 + c < w * h * 4 := by
  have h1 : y * w + x < w * h := by
    calc y * w + x < y * w + w := by omega
    _ = (y + 1) * w := by ring
    _ ≤ h * w := Nat.mul_le_mul_right w (by omega)
    _ = w * h := Nat.mul_comm h w
  omega

/-- Row-major decomposition: the column of pixel `y*w + x`. -/
theorem pix_mod_w (w x y : Nat) (hx : x < w) : (y * w + x) % w = x := by
  rw [Nat.add_comm, Nat.add_mul_mod_self_right, Nat.mod_eq_of_lt hx]

/-- Row-major decomposition: the row of pixel `y*w + x`. -/
theorem pix_div_w (w x y : Nat) (hx : x < w) : (y * w + x) / w = y := by
  rw [Nat.add_comm, Nat.add_mul_div_right x y (by omega : 0 < w),
    Nat.div_eq_of_lt hx, Nat.zero_add]

/-- One byte of the mirror output, at pixel coordinates: byte `c` of
pixel `(x, y)` is read from the source pixel given by the flag-selected
reflections. -/
theorem mirrorPass_at (w h : Nat) (hor ver : Bool) (copy : List Nat) (x y c : Nat)
    (hx : x < w) (hy : y < h) (hc : c < 4) :
    (mirrorPass w h hor ver copy).getD ((y * w + x) * 4 + c) 0
      = byteAt copy (((if ver then h - 1 - y else y) * w
          + (if hor then w - 1 - x else x)) * 4 + c) := by
  have hi : (y * w + x) * 4 + c < w * h * 4 := pix_index_lt w h x y c hx hy hc
  have hl : (y * w + x) * 4 + c < (mirrorPass w h hor ver copy).length := by
    rw [mirrorPass_length]; exact hi
  rw [List.getD_eq_getElem _ 0 hl]
  simp only [mirrorPass, List.getElem_map, List.getElem_range]
  have h4 : ((y * w + x) * 4 + c) / 4 = y * w + x := by omega
  have hm4 : ((y * w + x) * 4 + c) % 4 = c := by omega
  rw [h4, hm4, pix_mod_w w x y hx, pix_div_w w x y hx]

/-- Claim C8: for every image accepted by validation and every flag
combination, the mirror call succeeds and every output pixel `(x, y)`
channel `c` equals the input at `(src_x, src_y)` with
`src_x = width-1-x` when `horizontal` else `x`, and
`src_y = height-1-y` when `vertical` else `y`. -/
theorem mirror_pixel_map (w h : Nat) (hor ver : Bool) (buf : List Nat)
    (hlen : buf.length = w * h * 4) (hw4 : w * h * 4 < U32M)
    (x y c : Nat) (hx : x < w) (hy : y < h) (hc : c < 4) :
    (mirrorProcess w h false (RawParams.decoded (some ⟨hor, ver⟩)) buf).1 = 0 ∧
    (mirrorProcess w h false (RawParams.decoded (some ⟨hor, ver⟩)) buf).2.getD
        ((y * w + x) * 4 + c) 0
      = buf.getD (((if ver then h - 1 - y else y) * w
          + (if hor then w - 1 - x else x)) * 4 + c) 0 := by
  rw [mirrorProcess_valid w h hor ver buf hw4]
  refine ⟨rfl, ?_⟩
  simp only
  exact mirrorPass_at w h hor ver buf x y c hx hy hc

/-- Witness for C8: the 2-by-2 image with both flags set; output byte 0
(pixel `(0,0)`, channel 0) is input byte 12 (pixel `(1,1)`, channel 0),
i.e. row-major pixels `[A, B, C, D]` become `[D, C, B, A]` at the probed
position. -/
theorem mirror_pixel_map_witness :
    (mirrorProcess 2 2 false (RawParams.decoded (some ⟨true, true⟩))
        [1, 2, 3, 4, 5, 6, 7, 8, 9, 10, 11, 12, 13, 14, 15, 16]).1 = 0 ∧
    (mirrorProcess 2 2 false (RawParams.decoded (some ⟨true, true⟩))
        [1, 2, 3, 4, 5, 6, 7, 8, 9, 10, 11, 12, 13, 14, 15, 16]).2.getD 0 0
      = [1, 2, 3, 4, 5, 6, 7, 8, 9, 10, 11, 12, 13, 14, 15, 16].getD 12 0 := by
  have hmap := mirror_pixel_map 2 2 true true
    [1, 2, 3, 4, 5, 6, 7, 8, 9, 10, 11, 12, 13, 14, 15, 16]
    (by decide) (by norm_num [U32M]) 0 0 0 (by decide) (by decide) (by decide)
  simpa using hmap

/-- Mirror validation followed by a decode failure (invalid UTF-8). -/
theorem mirrorProcess_decode_none (w h : Nat) (params : RawParams MirrorParams)
    (buf : List Nat) (hw4 : w * h * 4 < U32M)
    (hd : decodeParams mirrorDefaultParams params = none) :
    mirrorProcess w h false params buf = (-1, buf) := by
  have hw : w * h < U32M := lt_of_le_of_lt (wh_le_wh4 w h) hw4
  simp [mirrorProcess, checkedMul32_eq_some w h hw,
    checkedMul32_eq_some (w * h) 4 hw4, hd]

/-- Mirror validation followed by a successful decode. -/
theorem mirrorProcess_decode_some (w h : Nat) (params : RawParams MirrorParams)
    (buf : List Nat) (p : MirrorParams) (hw4 : w * h * 4 < U32M)
    (hd : decodeParams mirrorDefaultParams params = some p) :
    mirrorProcess w h false params buf
      = (0, mirrorPass w h p.horizontal p.vertical buf) := by
  have hw : w * h < U32M := lt_of_le_of_lt (wh_le_wh4 w h) hw4
  simp [mirrorProcess, checkedMul32_eq_some w h hw,
    checkedMul32_eq_some (w * h) 4 hw4, hd]

/-- Double mirroring restores one byte (pixel coordinates form). -/
theorem mirrorPass_inv_at (w h : Nat) (hor ver : Bool) (buf : List Nat) (x y c : Nat)
    (hx : x < w) (hy : y < h) (hc : c < 4) :
    (mirrorPass w h hor ver (mirrorPass w h hor ver buf)).getD ((y * w + x) * 4 + c) 0
      = buf.getD ((y * w + x) * 4 + c) 0 := by
  have hsx : (if hor then w - 1 - x else x) < w := by
    cases hor <;> simp <;> omega
  have hsy : (if ver then h - 1 - y else y) < h := by
    cases ver <;> simp <;> omega
  rw [mirrorPass_at w h hor ver _ x y c hx hy hc, byteAt,
    mirrorPass_at w h hor ver buf _ _ c hsx hsy hc]
  have hinvx : (if hor then w - 1 - (if hor then w - 1 - x else x)
      else (if hor then w - 1 - x else x)) = x := by
    cases hor <;> simp <;> omega
  have hinvy : (if ver then h - 1 - (if ver then h - 1 - y else y)
      else (if ver then h - 1 - y else y)) = y := by
    cases ver <;> simp <;> omega
  rw [hinvx, hinvy, byteAt]

/-- Double mirroring restores the whole buffer. -/
theorem mirrorPass_involutive (w h : Nat) (hor ver : Bool) (buf : List Nat)
    (hlen : buf.length = w * h * 4) :
    mirrorPass w h hor ver (mirrorPass w h hor ver buf) = buf := by
  refine List.ext_getElem (by rw [mirrorPass_length, hlen]) ?_
  intro i h1 h2
  have hi : i < w * h * 4 := by rwa [mirrorPass_length] at h1
  rcases Nat.eq_zero_or_pos w with hw0 | hw
  · subst hw0; simp at hi
  have hx : i / 4 % w < w := Nat.mod_lt _ hw
  have hy : i / 4 / w < h := by
    have hp : i / 4 < w * h := by omega
    rw [Nat.div_lt_iff_lt_mul hw, Nat.mul_comm _ w]
    exact hp
  have hrec : ((i / 4 / w) * w + i / 4 % w) * 4 + i % 4 = i := by
    rw [Nat.mul_comm (i / 4 / w) w, Nat.div_add_mod, Nat.mul_comm (i / 4) 4,
      Nat.div_add_mod]
  rw [← List.getD_eq_getElem _ 0 h1, ← List.getD_eq_getElem _ 0 h2, ← hrec]
  exact mirrorPass_inv_at w h hor ver buf _ _ _ hx hy (by omega)

/-- Claim C10: the mirror filter is an involution -- two successive
`process_image` calls with the same parameter channel (hence the same
decoded flags) restore every byte of the buffer, for every flag
combination and every parameter outcome (on an undecodable or non-UTF-8
parameter the call leaves the buffer untouched, so twice is still the
identity). -/
theorem mirror_involution (w h : Nat) (params : RawParams MirrorParams)
    (buf : List Nat) (hlen : buf.length = w * h * 4) (hw4 : w * h * 4 < U32M) :
    (mirrorProcess w h false params (mirrorProcess w h false params buf).2).2 = buf := by
  rcases hd : decodeParams mirrorDefaultParams params with _ | p
  · rw [mirrorProcess_decode_none w h params buf hw4 hd]
    simp only
    rw [mirrorProcess_decode_none w h params buf hw4 hd]
  · rw [mirrorProcess_decode_some w h params buf p hw4 hd]
    simp only
    rw [mirrorProcess_decode_some w h params _ p hw4 hd]
    simp only
    exact mirrorPass_involutive w h p.horizontal p.vertical buf hlen

/-- Witness for C10: a 1-by-2 image, both flags set. -/
theorem mirror_involution_witness :
    (mirrorProcess 1 2 false (RawParams.decoded (some ⟨true, true⟩))
        (mirrorProcess 1 2 false (RawParams.decoded (some ⟨true, true⟩))
          [1, 2, 3, 4, 5, 6, 7, 8]).2).2 = [1, 2, 3, 4, 5, 6, 7, 8] :=
  mirror_involution 1 2 (RawParams.decoded (some ⟨true, true⟩))
    [1, 2, 3, 4, 5, 6, 7, 8] (by decide) (by norm_num [U32M])
